import Mathlib

/-!
Verification of the text fit-and-wrap renderer of the feed-to-image
repository.  The function under study is render_text_in_rectangle in
src/plugins/softer_world/app/utils/generator_utils.py (lines 95-183),
together with its duplicate in src/plugins/softer_world/__main__.py
(lines 48-136).

The embedding is shallow: Python machine integers become Int, the
floating point line-spacing multiplier becomes Rat (the spec treats the
arithmetic as exact), the PIL font-width capability
font.getbbox(text)[2] becomes an abstract measurement function
measure : Nat -> String -> Int taking the current font size and the
string, and the drawing side effects (canvas.text calls) become the list
of positioned line records returned in the result.  A ZeroDivisionError
raised by the line rect_height / line_height is modelled by the error
case of Except Unit.
-/

namespace FeedToImage

/-- Python int() applied to a rational value: truncation toward zero. -/
def pyInt (q : ℚ) : ℤ := if q < 0 then ⌈q⌉ else ⌊q⌋

/-- Python int() applied to a value that is already an integer: identity.
The generator_utils copy of the renderer wraps several already-integer
values in int(); the __main__ copy does not. -/
def pyIntOfInt (z : ℤ) : ℤ := z

/-- Helper for pySplit: scan the character list, cutting at every single
space, accumulating the current chunk in reverse. -/
def pySplitGo (acc : List Char) : List Char → List String
  | [] => [String.mk acc.reverse]
  | c :: cs =>
      if c = ' ' then String.mk acc.reverse :: pySplitGo [] cs
      else pySplitGo (c :: acc) cs

/-- Python text.split(" "): split on every single ASCII space, keeping
empty chunks, and returning [""] on the empty string. -/
def pySplit (s : String) : List String := pySplitGo [] s.data

/-- Python " ".join(words). -/
def joinWords : List String → String
  | [] => ""
  | [w] => w
  | w :: ws => w ++ " " ++ joinWords ws

/-- Inner while loop of the renderer (generator_utils.py lines 138-140):
pop words from the front of the remaining list onto the current line as
long as the measured width of the line so far joined with the next word
by one space stays within wd.  Returns the current line words and the
remaining words. -/
def fillLine (m : String → ℤ) (wd : ℤ) : List String → List String → List String × List String
  | acc, [] => (acc, [])
  | acc, w :: rest =>
      if m (joinWords (acc ++ [w])) ≤ wd then fillLine m wd (acc ++ [w]) rest
      else (acc, w :: rest)

/-- Outer while loop of the renderer (generator_utils.py lines 134-145):
build at most maxL lines; if a line comes back empty (first word too
wide) the loop breaks.  The fuel argument bounds the number of
iterations; every call in this development passes the length of the
remaining word list, which is sufficient because each produced line
consumes at least one word. -/
def wrapGo (m : String → ℤ) (wd maxL : ℤ) : ℕ → List String → List String → List String × List String
  | 0, lines, remaining => (lines, remaining)
  | fuel + 1, lines, remaining =>
      if (lines.length : ℤ) < maxL ∧ remaining ≠ [] then
        let fl := fillLine m wd [] remaining
        if fl.1 = [] then (lines, remaining)
        else wrapGo m wd maxL fuel (lines ++ [joinWords fl.1]) fl.2
      else (lines, remaining)

/-- LayoutRequest of the spec data model: the text, the rectangle given
as left, top, right, bottom, the two alignment selectors (compared
against the literals "top" and "center" exactly as the Python code
does), and the line spacing multiplier. -/
structure LayoutRequest where
  text : String
  left : ℤ
  top : ℤ
  right : ℤ
  bottom : ℤ
  hAlign : String
  vAlign : String
  spacing : ℚ

/-- rect_width = rectangle_bounds[2] - rectangle_bounds[0]. -/
def rectWidth (p : LayoutRequest) : ℤ := p.right - p.left

/-- rect_height = rectangle_bounds[3] - rectangle_bounds[1]. -/
def rectHeight (p : LayoutRequest) : ℤ := p.bottom - p.top

/-- line_height = int(current_font.size * line_spacing_multiplier). -/
def lineHeight (spacing : ℚ) (size : ℕ) : ℤ := pyInt ((size : ℚ) * spacing)

/-- Horizontal position of one line (generator_utils.py lines 165-168). -/
def lineX (m1 : String → ℤ) (p : LayoutRequest) (t : String) : ℤ :=
  if p.hAlign = "center" then
    pyInt ((p.left : ℚ) + (rectWidth p : ℚ) / 2 - (m1 t : ℚ) / 2)
  else p.left

/-- Rendering loop over the accepted lines (generator_utils.py lines
160-176): each line is drawn at its computed x and at a y that starts at
start_y and advances by line_height per line.  The canvas.text side
effect is embedded as the returned record (text, x, y). -/
def drawLines (m1 : String → ℤ) (p : LayoutRequest) (lh : ℤ) : ℤ → List String → List (String × ℤ × ℤ)
  | _, [] => []
  | y, t :: ts => (t, lineX m1 p t, y) :: drawLines m1 p lh (y + lh) ts

/-- LayoutResult of the spec data model: the accepted font size, the
start_y value, the positioned line records, and the returned
actual-bounds tuple (left, top, right, bottom). -/
structure LayoutResult where
  size : ℕ
  startY : ℤ
  lines : List (String × ℤ × ℤ)
  bounds : ℤ × ℤ × ℤ × ℤ
deriving DecidableEq, Repr

/-- Success branch of the renderer at one font size (generator_utils.py
lines 149-178): compute start_y from the vertical alignment, draw the
lines, and track the actual text bounds by folding min over the drawn x
values starting from rect right, and max over x plus line width starting
from rect left. -/
def mkResult (m1 : String → ℤ) (p : LayoutRequest) (size : ℕ) (lh : ℤ) (ls : List String) : LayoutResult :=
  let startY : ℤ :=
    if p.vAlign = "top" then pyIntOfInt p.top
    else
      pyInt ((p.top : ℚ) + (rectHeight p : ℚ) / 2 - ((ls.length : ℚ) * (lh : ℚ)) / 2
        - ((lh : ℚ) - (size : ℚ)) / 2)
  let drawn := drawLines m1 p lh startY ls
  { size := size
    startY := startY
    lines := drawn
    bounds := ((drawn.map (fun r => pyIntOfInt r.2.1)).foldl min p.right,
               pyIntOfInt startY,
               (drawn.map (fun r => pyIntOfInt (r.2.1 + m1 r.1))).foldl max p.left,
               pyIntOfInt (startY + (ls.length : ℤ) * lh)) }

/-- One iteration of the size loop, after line_height has been computed
and found nonzero: max_lines_possible = math.floor(rect_height /
line_height) is floor division, the text is wrapped, and the size
succeeds when all words were consumed and at most max_lines_possible
lines were produced (generator_utils.py lines 128-148). -/
def attemptResult (m : ℕ → String → ℤ) (p : LayoutRequest) (size : ℕ) : Option LayoutResult :=
  let lh := lineHeight p.spacing size
  let maxL := Int.fdiv (rectHeight p) lh
  let words := pySplit p.text
  let wr := wrapGo (m size) (rectWidth p) maxL words.length [] words
  if (wr.1.length : ℤ) ≤ maxL ∧ wr.2 = [] then some (mkResult (m size) p size lh wr.1)
  else none

/-- The size loop (generator_utils.py lines 126-183): while the current
size is positive, try the size; on success return the layout, otherwise
retry with the size decremented by exactly one.  A zero line_height
would make the Python expression rect_height / line_height raise
ZeroDivisionError, modelled by the error case. -/
def renderLoop (m : ℕ → String → ℤ) (p : LayoutRequest) : ℕ → Except Unit (Option LayoutResult)
  | 0 => Except.ok none
  | s + 1 =>
      if lineHeight p.spacing (s + 1) = 0 then Except.error ()
      else
        match attemptResult m p (s + 1) with
        | some r => Except.ok (some r)
        | none => renderLoop m p s

/-- render_text_in_rectangle of generator_utils.py, starting from the
requested font size.  Except.ok none is the DoesNotFit outcome. -/
def render_text_in_rectangle (m : ℕ → String → ℤ) (p : LayoutRequest) (size0 : ℕ) : Except Unit (Option LayoutResult) :=
  renderLoop m p size0

/-- The renderer attempt at the given size succeeds. -/
def attemptSucceeds (m : ℕ → String → ℤ) (p : LayoutRequest) (size : ℕ) : Prop :=
  attemptResult m p size ≠ none

instance (m : ℕ → String → ℤ) (p : LayoutRequest) (size : ℕ) :
    Decidable (attemptSucceeds m p size) := by
  unfold attemptSucceeds; infer_instance

/-- Greedy wrapping as the spec words it for the claim C1
characterization: split the text on single spaces, build lines by
appending words while the joined width fits, with no cap on the number
of lines; the result is none when some line cannot even take its first
word.  The fuel argument again bounds the recursion and is always
instantiated with the word count. -/
def greedyWrapAll (m : String → ℤ) (wd : ℤ) : ℕ → List String → Option (List String)
  | _, [] => some []
  | 0, _ :: _ => none
  | fuel + 1, w :: rest =>
      let fl := fillLine m wd [] (w :: rest)
      if fl.1 = [] then none
      else (greedyWrapAll m wd fuel fl.2).map (fun out => joinWords fl.1 :: out)

/-- Spec-side fit predicate of claim C1: greedy wrapping at this size
consumes every word in at most floor(rect_height / line_height) lines. -/
def fitsGreedy (m : ℕ → String → ℤ) (p : LayoutRequest) (size : ℕ) : Prop :=
  ∃ out, greedyWrapAll (m size) (rectWidth p) (pySplit p.text).length (pySplit p.text) = some out ∧
    (out.length : ℤ) ≤ Int.fdiv (rectHeight p) (lineHeight p.spacing size)

/-- Success branch of the duplicate renderer in __main__.py (lines
102-131).  It is identical to mkResult except that the redundant int()
casts on already-integer values are absent. -/
def mkResultMain (m1 : String → ℤ) (p : LayoutRequest) (size : ℕ) (lh : ℤ) (ls : List String) : LayoutResult :=
  let startY : ℤ :=
    if p.vAlign = "top" then pyIntOfInt p.top
    else
      pyInt ((p.top : ℚ) + (rectHeight p : ℚ) / 2 - ((ls.length : ℚ) * (lh : ℚ)) / 2
        - ((lh : ℚ) - (size : ℚ)) / 2)
  let drawn := drawLines m1 p lh startY ls
  { size := size
    startY := startY
    lines := drawn
    bounds := ((drawn.map (fun r => r.2.1)).foldl min p.right,
               startY,
               (drawn.map (fun r => r.2.1 + m1 r.1)).foldl max p.left,
               startY + (ls.length : ℤ) * lh) }

/-- One size-loop iteration of the duplicate renderer in __main__.py. -/
def attemptResultMain (m : ℕ → String → ℤ) (p : LayoutRequest) (size : ℕ) : Option LayoutResult :=
  let lh := lineHeight p.spacing size
  let maxL := Int.fdiv (rectHeight p) lh
  let words := pySplit p.text
  let wr := wrapGo (m size) (rectWidth p) maxL words.length [] words
  if (wr.1.length : ℤ) ≤ maxL ∧ wr.2 = [] then some (mkResultMain (m size) p size lh wr.1)
  else none

/-- Size loop of the duplicate renderer in __main__.py (lines 79-136). -/
def renderLoopMain (m : ℕ → String → ℤ) (p : LayoutRequest) : ℕ → Except Unit (Option LayoutResult)
  | 0 => Except.ok none
  | s + 1 =>
      if lineHeight p.spacing (s + 1) = 0 then Except.error ()
      else
        match attemptResultMain m p (s + 1) with
        | some r => Except.ok (some r)
        | none => renderLoopMain m p s

/-- render_text_in_rectangle of __main__.py. -/
def render_text_in_rectangle_main (m : ℕ → String → ℤ) (p : LayoutRequest) (size0 : ℕ) : Except Unit (Option LayoutResult) :=
  renderLoopMain m p size0


theorem pySplitGo_ne_nil (acc : List Char) (cs : List Char) : pySplitGo acc cs ≠ [] := by
  induction cs generalizing acc with
  | nil => simp [pySplitGo]
  | cons c cs ih =>
      simp only [pySplitGo]
      split
      · simp
      · exact ih _

theorem pySplit_ne_nil (s : String) : pySplit s ≠ [] := pySplitGo_ne_nil _ _

theorem pyInt_of_nonneg {q : ℚ} (h : 0 ≤ q) : pyInt q = ⌊q⌋ := by
  simp [pyInt, not_lt.mpr h]

theorem floor_le_pyInt (q : ℚ) : ⌊q⌋ ≤ pyInt q := by
  unfold pyInt
  split
  · exact Int.floor_le_ceil q
  · exact le_rfl

theorem pyInt_le_ceil (q : ℚ) : pyInt q ≤ ⌈q⌉ := by
  unfold pyInt
  split
  · exact le_rfl
  · exact Int.floor_le_ceil q

theorem le_pyInt {z : ℤ} {q : ℚ} (h : (z : ℚ) ≤ q) : z ≤ pyInt q :=
  le_trans (Int.le_floor.mpr h) (floor_le_pyInt q)

theorem pyInt_le {z : ℤ} {q : ℚ} (h : q ≤ (z : ℚ)) : pyInt q ≤ z :=
  le_trans (pyInt_le_ceil q) (Int.ceil_le.mpr h)

theorem lineHeight_one (s : ℕ) : lineHeight 1 s = (s : ℤ) := by
  simp [lineHeight, pyInt, Int.floor_natCast]

theorem one_le_lineHeight {spacing : ℚ} {s : ℕ} (hsp : 1 ≤ spacing) (hs : 1 ≤ s) :
    1 ≤ lineHeight spacing s := by
  have hq : (1 : ℚ) ≤ (s : ℚ) * spacing := by
    have h1 : (1 : ℚ) ≤ (s : ℚ) := by exact_mod_cast hs
    calc (1 : ℚ) = 1 * 1 := by ring
    _ ≤ (s : ℚ) * spacing := by
        apply mul_le_mul h1 hsp (by norm_num) (le_trans (by norm_num) h1)
  exact le_pyInt (by exact_mod_cast hq)

theorem lineHeight_ne_zero {spacing : ℚ} {s : ℕ} (hsp : 1 ≤ spacing) (hs : 1 ≤ s) :
    lineHeight spacing s ≠ 0 := by
  have := one_le_lineHeight hsp hs
  omega

theorem fillLine_rest_le (m : String → ℤ) (wd : ℤ) (acc rem : List String) :
    (fillLine m wd acc rem).2.length ≤ rem.length := by
  induction rem generalizing acc with
  | nil => simp [fillLine]
  | cons w rest ih =>
      simp only [fillLine]
      split
      · exact le_trans (ih _) (by simp)
      · simp

theorem fillLine_ne_acc_lt (m : String → ℤ) (wd : ℤ) (acc rem : List String)
    (h : (fillLine m wd acc rem).1 ≠ acc) :
    (fillLine m wd acc rem).2.length < rem.length := by
  induction rem generalizing acc with
  | nil => simp [fillLine] at h
  | cons w rest ih =>
      by_cases hc : m (joinWords (acc ++ [w])) ≤ wd
      · simp only [fillLine, if_pos hc]
        exact lt_of_le_of_lt (fillLine_rest_le m wd _ _) (by simp)
      · simp only [fillLine, if_neg hc] at h
        simp at h

theorem fillLine_width (m : String → ℤ) (wd : ℤ) (acc rem : List String) :
    (fillLine m wd acc rem).1 = acc ∨ m (joinWords (fillLine m wd acc rem).1) ≤ wd := by
  induction rem generalizing acc with
  | nil => left; simp [fillLine]
  | cons w rest ih =>
      simp only [fillLine]
      split
      · rcases ih (acc ++ [w]) with h | h
        · right; rw [h]; assumption
        · right; exact h
      · left; rfl

theorem wrapGo_lines_le (m : String → ℤ) (wd maxL : ℤ) :
    ∀ (fuel : ℕ) (lines rem : List String),
      lines.length ≤ (wrapGo m wd maxL fuel lines rem).1.length := by
  intro fuel
  induction fuel with
  | zero => intro lines rem; simp [wrapGo]
  | succ fuel ih =>
      intro lines rem
      simp only [wrapGo]
      split
      · split
        · simp
        · exact le_trans (by simp) (ih _ _)
      · simp

theorem wrapGo_grow (m : String → ℤ) (wd maxL : ℤ) (fuel : ℕ) (lines rem : List String)
    (h1 : rem ≠ []) (h2 : (wrapGo m wd maxL fuel lines rem).2 = []) :
    lines.length < (wrapGo m wd maxL fuel lines rem).1.length := by
  cases fuel with
  | zero => simp [wrapGo] at h2; exact absurd h2 h1
  | succ fuel =>
      by_cases hc : (lines.length : ℤ) < maxL ∧ rem ≠ []
      · by_cases hfe : (fillLine m wd [] rem).1 = []
        · simp only [wrapGo, if_pos hc, if_pos hfe] at h2 ⊢
          exact absurd h2 h1
        · simp only [wrapGo, if_pos hc, if_neg hfe] at h2 ⊢
          exact lt_of_lt_of_le (by simp) (wrapGo_lines_le m wd maxL fuel _ _)
      · simp only [wrapGo, if_neg hc] at h2 ⊢
        exact absurd h2 h1

theorem wrapGo_width (m : String → ℤ) (wd maxL : ℤ) :
    ∀ (fuel : ℕ) (lines rem : List String), (∀ t ∈ lines, m t ≤ wd) →
      ∀ t ∈ (wrapGo m wd maxL fuel lines rem).1, m t ≤ wd := by
  intro fuel
  induction fuel with
  | zero => intro lines rem hl; simpa [wrapGo] using hl
  | succ fuel ih =>
      intro lines rem hl
      simp only [wrapGo]
      split
      · split
        · simpa using hl
        · rename_i hfe
          apply ih
          intro t ht
          rcases List.mem_append.mp ht with h | h
          · exact hl t h
          · have hw := fillLine_width m wd [] rem
            rcases hw with hacc | hwid
            · exact absurd hacc hfe
            · simp at h
              rw [h]
              exact hwid
      · simpa using hl

theorem wrapGo_maxL_nonpos (m : String → ℤ) (wd maxL : ℤ) (hm : maxL ≤ 0)
    (fuel : ℕ) (rem : List String) :
    wrapGo m wd maxL fuel [] rem = ([], rem) := by
  cases fuel with
  | zero => rfl
  | succ fuel =>
      simp only [wrapGo]
      rw [if_neg]
      rintro ⟨hlt, -⟩
      simp at hlt
      omega

theorem wrapGo_eq_greedy (m : String → ℤ) (wd maxL : ℤ) :
    ∀ (fuel : ℕ) (ws lines : List String), ws.length ≤ fuel →
      ((((wrapGo m wd maxL fuel lines ws).1.length : ℤ) ≤ maxL ∧
          (wrapGo m wd maxL fuel lines ws).2 = []) ↔
        ∃ out, greedyWrapAll m wd fuel ws = some out ∧
          (lines.length : ℤ) + (out.length : ℤ) ≤ maxL) := by
  intro fuel
  induction fuel with
  | zero =>
      intro ws lines hfuel
      have hws : ws = [] := List.eq_nil_of_length_eq_zero (Nat.le_zero.mp hfuel)
      subst hws
      simp [wrapGo, greedyWrapAll]
  | succ fuel ih =>
      intro ws lines hfuel
      cases ws with
      | nil => simp [wrapGo, greedyWrapAll]
      | cons w rest =>
          by_cases hlt : (lines.length : ℤ) < maxL
          · by_cases hfe : (fillLine m wd [] (w :: rest)).1 = []
            · have hwrap : wrapGo m wd maxL (fuel + 1) lines (w :: rest) = (lines, w :: rest) := by
                simp only [wrapGo]
                rw [if_pos ⟨hlt, List.cons_ne_nil w rest⟩, if_pos hfe]
              have hgreedy : greedyWrapAll m wd (fuel + 1) (w :: rest) = none := by
                simp only [greedyWrapAll]
                rw [if_pos hfe]
              rw [hwrap, hgreedy]
              simp
            · have hwrap : wrapGo m wd maxL (fuel + 1) lines (w :: rest) =
                  wrapGo m wd maxL fuel (lines ++ [joinWords (fillLine m wd [] (w :: rest)).1])
                    (fillLine m wd [] (w :: rest)).2 := by
                simp only [wrapGo]
                rw [if_pos ⟨hlt, List.cons_ne_nil w rest⟩, if_neg hfe]
              have hgreedy : greedyWrapAll m wd (fuel + 1) (w :: rest) =
                  (greedyWrapAll m wd fuel (fillLine m wd [] (w :: rest)).2).map
                    (fun out => joinWords (fillLine m wd [] (w :: rest)).1 :: out) := by
                simp only [greedyWrapAll]
                rw [if_neg hfe]
              have hlen : (fillLine m wd [] (w :: rest)).2.length ≤ fuel := by
                have := fillLine_ne_acc_lt m wd [] (w :: rest) hfe
                simp at this hfuel
                omega
              rw [hwrap, hgreedy, ih _ _ hlen]
              constructor
              · rintro ⟨out, hout, hle⟩
                refine ⟨joinWords (fillLine m wd [] (w :: rest)).1 :: out, by rw [hout]; rfl, ?_⟩
                simp at hle ⊢
                omega
              · rintro ⟨out, hout, hle⟩
                rcases Option.map_eq_some'.mp hout with ⟨out', hout', rfl⟩
                refine ⟨out', hout', ?_⟩
                simp at hle ⊢
                omega
          · have hwrap : wrapGo m wd maxL (fuel + 1) lines (w :: rest) = (lines, w :: rest) := by
              simp only [wrapGo]
              rw [if_neg]
              rintro ⟨h1, -⟩
              exact hlt h1
            rw [hwrap]
            constructor
            · rintro ⟨-, h⟩
              exact absurd h (List.cons_ne_nil w rest)
            · rintro ⟨out, hout, hle⟩
              exfalso
              simp only [greedyWrapAll] at hout
              split at hout
              · exact Option.noConfusion hout
              · rcases Option.map_eq_some'.mp hout with ⟨out', -, rfl⟩
                simp at hle
                omega

theorem mkResult_size (m1 : String → ℤ) (p : LayoutRequest) (s : ℕ) (lh : ℤ) (ls : List String) :
    (mkResult m1 p s lh ls).size = s := rfl

theorem attemptSucceeds_iff (m : ℕ → String → ℤ) (p : LayoutRequest) (s : ℕ) :
    attemptSucceeds m p s ↔
      (((wrapGo (m s) (rectWidth p) (Int.fdiv (rectHeight p) (lineHeight p.spacing s))
            (pySplit p.text).length [] (pySplit p.text)).1.length : ℤ) ≤
          Int.fdiv (rectHeight p) (lineHeight p.spacing s) ∧
        (wrapGo (m s) (rectWidth p) (Int.fdiv (rectHeight p) (lineHeight p.spacing s))
            (pySplit p.text).length [] (pySplit p.text)).2 = []) := by
  unfold attemptSucceeds attemptResult
  dsimp only
  split
  · rename_i h; simpa using h
  · rename_i h; simpa using h

theorem attempt_iff_fits (m : ℕ → String → ℤ) (p : LayoutRequest) (s : ℕ) :
    attemptSucceeds m p s ↔ fitsGreedy m p s := by
  rw [attemptSucceeds_iff]
  have key := wrapGo_eq_greedy (m s) (rectWidth p)
    (Int.fdiv (rectHeight p) (lineHeight p.spacing s)) (pySplit p.text).length
    (pySplit p.text) [] le_rfl
  rw [key]
  unfold fitsGreedy
  simp

theorem attemptResult_some {m : ℕ → String → ℤ} {p : LayoutRequest} {s : ℕ} {r : LayoutResult}
    (h : attemptResult m p s = some r) :
    r = mkResult (m s) p s (lineHeight p.spacing s)
        (wrapGo (m s) (rectWidth p) (Int.fdiv (rectHeight p) (lineHeight p.spacing s))
          (pySplit p.text).length [] (pySplit p.text)).1 ∧
    (((wrapGo (m s) (rectWidth p) (Int.fdiv (rectHeight p) (lineHeight p.spacing s))
          (pySplit p.text).length [] (pySplit p.text)).1.length : ℤ) ≤
        Int.fdiv (rectHeight p) (lineHeight p.spacing s)) ∧
    (wrapGo (m s) (rectWidth p) (Int.fdiv (rectHeight p) (lineHeight p.spacing s))
          (pySplit p.text).length [] (pySplit p.text)).2 = [] := by
  unfold attemptResult at h
  dsimp only at h
  split at h
  · rename_i hc
    cases h
    exact ⟨rfl, hc.1, hc.2⟩
  · exact Option.noConfusion h

theorem renderLoop_ok (m : ℕ → String → ℤ) (p : LayoutRequest) (hsp : 1 ≤ p.spacing) :
    ∀ n, ∃ v, renderLoop m p n = Except.ok v := by
  intro n
  induction n with
  | zero => exact ⟨none, rfl⟩
  | succ s ih =>
      simp only [renderLoop]
      rw [if_neg (lineHeight_ne_zero hsp (by omega))]
      cases hA : attemptResult m p (s + 1) with
      | some r => exact ⟨some r, rfl⟩
      | none => simpa using ih

theorem renderLoop_none_iff (m : ℕ → String → ℤ) (p : LayoutRequest) (hsp : 1 ≤ p.spacing) :
    ∀ n, (renderLoop m p n = Except.ok none ↔ ∀ s, 0 < s → s ≤ n → ¬ attemptSucceeds m p s) := by
  intro n
  induction n with
  | zero =>
      constructor
      · intro _ s h0 h1
        omega
      · intro _; rfl
  | succ s ih =>
      simp only [renderLoop]
      rw [if_neg (lineHeight_ne_zero hsp (by omega))]
      cases hA : attemptResult m p (s + 1) with
      | some r =>
          constructor
          · intro h; simp at h
          · intro h
            exfalso
            exact h (s + 1) (by omega) le_rfl (by simp [attemptSucceeds, hA])
      | none =>
          rw [ih]
          constructor
          · intro h t h0 h1
            rcases Nat.lt_succ_iff_lt_or_eq.mp (Nat.lt_succ_of_le h1) with ht | ht
            · exact h t h0 (by omega)
            · subst ht
              simp [attemptSucceeds, hA]
          · intro h t h0 h1
            exact h t h0 (by omega)

theorem renderLoop_some {m : ℕ → String → ℤ} {p : LayoutRequest} {n : ℕ} {r : LayoutResult}
    (h : renderLoop m p n = Except.ok (some r)) :
    ∃ s, 0 < s ∧ s ≤ n ∧ attemptResult m p s = some r ∧
      ∀ t, s < t → t ≤ n → ¬ attemptSucceeds m p t := by
  induction n with
  | zero => simp [renderLoop] at h
  | succ s ih =>
      simp only [renderLoop] at h
      by_cases hz : lineHeight p.spacing (s + 1) = 0
      · rw [if_pos hz] at h
        exact Except.noConfusion h
      · rw [if_neg hz] at h
        cases hA : attemptResult m p (s + 1) with
        | some r2 =>
            rw [hA] at h
            have hr : r2 = r := by simpa using h
            subst hr
            refine ⟨s + 1, by omega, le_rfl, hA, ?_⟩
            intro t ht1 ht2
            omega
        | none =>
            rw [hA] at h
            rcases ih h with ⟨u, hu0, hu1, hu2, hu3⟩
            refine ⟨u, hu0, by omega, hu2, ?_⟩
            intro t ht1 ht2
            rcases Nat.lt_succ_iff_lt_or_eq.mp (Nat.lt_succ_of_le ht2) with ht | ht
            · exact hu3 t ht1 (by omega)
            · subst ht
              simp [attemptSucceeds, hA]

theorem render_some_spec {m : ℕ → String → ℤ} {p : LayoutRequest} {n : ℕ} {r : LayoutResult}
    (h : render_text_in_rectangle m p n = Except.ok (some r)) :
    0 < r.size ∧ r.size ≤ n ∧ attemptResult m p r.size = some r ∧
      ∀ t, r.size < t → t ≤ n → ¬ attemptSucceeds m p t := by
  rcases renderLoop_some h with ⟨s, h0, h1, h2, h3⟩
  have hsize : r.size = s := by
    rw [(attemptResult_some h2).1, mkResult_size]
  rw [hsize]
  exact ⟨h0, h1, h2, h3⟩

theorem foldl_min_le_init (a : ℤ) (xs : List ℤ) : xs.foldl min a ≤ a := by
  induction xs generalizing a with
  | nil => simp
  | cons x xs ih =>
      simp only [List.foldl]
      exact le_trans (ih _) (min_le_left a x)

theorem foldl_min_le_mem (a : ℤ) (xs : List ℤ) : ∀ x ∈ xs, xs.foldl min a ≤ x := by
  induction xs generalizing a with
  | nil => simp
  | cons y ys ih =>
      intro x hx
      simp only [List.foldl]
      rcases List.mem_cons.mp hx with rfl | hx
      · exact le_trans (foldl_min_le_init (min a x) ys) (min_le_right a x)
      · exact ih (min a y) x hx

theorem foldl_min_choice (a : ℤ) (xs : List ℤ) : xs.foldl min a = a ∨ xs.foldl min a ∈ xs := by
  induction xs generalizing a with
  | nil => left; rfl
  | cons y ys ih =>
      simp only [List.foldl]
      rcases ih (min a y) with h | h
      · rw [h]
        rcases min_choice a y with h2 | h2
        · left; exact h2
        · right; rw [h2]; exact List.mem_cons_self y ys
      · right; exact List.mem_cons_of_mem y h

theorem foldl_min_attained (a : ℤ) (xs : List ℤ) (hne : xs ≠ []) (hub : ∀ x ∈ xs, x ≤ a) :
    xs.foldl min a ∈ xs ∧ ∀ x ∈ xs, xs.foldl min a ≤ x := by
  refine ⟨?_, foldl_min_le_mem a xs⟩
  rcases foldl_min_choice a xs with h | h
  · rcases List.exists_mem_of_ne_nil xs hne with ⟨x0, hx0⟩
    have h1 := foldl_min_le_mem a xs x0 hx0
    have h2 := hub x0 hx0
    have hx0a : x0 = a := le_antisymm h2 (h ▸ h1)
    rw [h, ← hx0a]
    exact hx0
  · exact h

theorem le_foldl_max_init (a : ℤ) (xs : List ℤ) : a ≤ xs.foldl max a := by
  induction xs generalizing a with
  | nil => simp
  | cons x xs ih =>
      simp only [List.foldl]
      exact le_trans (le_max_left a x) (ih _)

theorem mem_le_foldl_max (a : ℤ) (xs : List ℤ) : ∀ x ∈ xs, x ≤ xs.foldl max a := by
  induction xs generalizing a with
  | nil => simp
  | cons y ys ih =>
      intro x hx
      simp only [List.foldl]
      rcases List.mem_cons.mp hx with rfl | hx
      · exact le_trans (le_max_right a x) (le_foldl_max_init (max a x) ys)
      · exact ih (max a y) x hx

theorem foldl_max_choice (a : ℤ) (xs : List ℤ) : xs.foldl max a = a ∨ xs.foldl max a ∈ xs := by
  induction xs generalizing a with
  | nil => left; rfl
  | cons y ys ih =>
      simp only [List.foldl]
      rcases ih (max a y) with h | h
      · rw [h]
        rcases max_choice a y with h2 | h2
        · left; exact h2
        · right; rw [h2]; exact List.mem_cons_self y ys
      · right; exact List.mem_cons_of_mem y h

theorem foldl_max_attained (a : ℤ) (xs : List ℤ) (hne : xs ≠ []) (hlb : ∀ x ∈ xs, a ≤ x) :
    xs.foldl max a ∈ xs ∧ ∀ x ∈ xs, x ≤ xs.foldl max a := by
  refine ⟨?_, mem_le_foldl_max a xs⟩
  rcases foldl_max_choice a xs with h | h
  · rcases List.exists_mem_of_ne_nil xs hne with ⟨x0, hx0⟩
    have h1 := mem_le_foldl_max a xs x0 hx0
    have h2 := hlb x0 hx0
    have hx0a : x0 = a := le_antisymm (h ▸ h1) h2
    rw [h, ← hx0a]
    exact hx0
  · exact h

theorem drawLines_length (m1 : String → ℤ) (p : LayoutRequest) (lh : ℤ) :
    ∀ (y : ℤ) (ls : List String), (drawLines m1 p lh y ls).length = ls.length := by
  intro y ls
  induction ls generalizing y with
  | nil => simp [drawLines]
  | cons t ts ih => simp [drawLines, ih]

theorem drawLines_mem (m1 : String → ℤ) (p : LayoutRequest) (lh : ℤ) :
    ∀ (y : ℤ) (ls : List String) (l : String × ℤ × ℤ), l ∈ drawLines m1 p lh y ls →
      l.1 ∈ ls ∧ l.2.1 = lineX m1 p l.1 := by
  intro y ls
  induction ls generalizing y with
  | nil => simp [drawLines]
  | cons t ts ih =>
      intro l hl
      simp only [drawLines, List.mem_cons] at hl
      rcases hl with rfl | hl
      · exact ⟨List.mem_cons_self _ _, rfl⟩
      · rcases ih _ l hl with ⟨h1, h2⟩
        exact ⟨List.mem_cons_of_mem _ h1, h2⟩

theorem drawLines_get (m1 : String → ℤ) (p : LayoutRequest) (lh : ℤ) :
    ∀ (ls : List String) (y : ℤ) (i : ℕ) (hi : i < (drawLines m1 p lh y ls).length),
      ((drawLines m1 p lh y ls).get ⟨i, hi⟩).2.2 = y + (i : ℤ) * lh := by
  intro ls
  induction ls with
  | nil => intro y i hi; simp [drawLines] at hi
  | cons t ts ih =>
      intro y i hi
      cases i with
      | zero => simp [drawLines]
      | succ j =>
          have hj : j < (drawLines m1 p lh (y + lh) ts).length := by
            simp [drawLines] at hi
            simpa [drawLines_length] using hi
          have := ih (y + lh) j hj
          simp only [drawLines, List.get_cons_succ]
          rw [this]
          push_cast
          ring

theorem left_le_lineX (m1 : String → ℤ) (p : LayoutRequest) (t : String)
    (hw : m1 t ≤ rectWidth p) : p.left ≤ lineX m1 p t := by
  unfold lineX
  split
  · apply le_pyInt
    have hw2 : (m1 t : ℚ) ≤ (rectWidth p : ℚ) := by exact_mod_cast hw
    linarith
  · exact le_rfl

theorem lineX_le_right (m1 : String → ℤ) (p : LayoutRequest) (t : String)
    (h0 : 0 ≤ m1 t) (hW : 0 ≤ rectWidth p) : lineX m1 p t ≤ p.right := by
  have hright : (p.right : ℚ) = (p.left : ℚ) + (rectWidth p : ℚ) := by
    unfold rectWidth
    push_cast
    ring
  unfold lineX
  split
  · apply pyInt_le
    have hW2 : (0 : ℚ) ≤ (rectWidth p : ℚ) := by exact_mod_cast hW
    have h02 : (0 : ℚ) ≤ (m1 t : ℚ) := by exact_mod_cast h0
    rw [hright]
    linarith
  · unfold rectWidth at hW
    omega

theorem lineX_add_width_le_right (m1 : String → ℤ) (p : LayoutRequest) (t : String)
    (h0 : 0 ≤ m1 t) (hw : m1 t ≤ rectWidth p) : lineX m1 p t + m1 t ≤ p.right := by
  have hright : (p.right : ℚ) = (p.left : ℚ) + (rectWidth p : ℚ) := by
    unfold rectWidth
    push_cast
    ring
  unfold lineX
  split
  · have hceil : pyInt ((p.left : ℚ) + (rectWidth p : ℚ) / 2 - (m1 t : ℚ) / 2) + m1 t ≤ p.right := by
      have h1 : pyInt ((p.left : ℚ) + (rectWidth p : ℚ) / 2 - (m1 t : ℚ) / 2) ≤ p.right - m1 t := by
        apply pyInt_le
        have hw2 : (m1 t : ℚ) ≤ (rectWidth p : ℚ) := by exact_mod_cast hw
        push_cast
        rw [hright]
        linarith
      omega
    exact hceil
  · unfold rectWidth at hw
    omega

theorem joinWords_single (w : String) : joinWords [w] = w := rfl

theorem wrapGo_single_too_wide (m : String → ℤ) (wd maxL : ℤ) (fuel : ℕ) (w : String)
    (hbig : wd < m w) : wrapGo m wd maxL fuel [] [w] = ([], [w]) := by
  cases fuel with
  | zero => rfl
  | succ fuel =>
      simp only [wrapGo]
      by_cases hc : ((([] : List String).length : ℤ) < maxL ∧ ([w] : List String) ≠ [])
      · rw [if_pos hc]
        have hfl : fillLine m wd [] [w] = ([], [w]) := by
          simp only [fillLine, List.nil_append, joinWords_single]
          rw [if_neg (not_le.mpr hbig)]
        rw [hfl]
        simp
      · rw [if_neg hc]

theorem fdiv_le_fdiv_of_le {a b c : ℤ} (hc : 0 < c) (h : a ≤ b) :
    Int.fdiv a c ≤ Int.fdiv b c := by
  rw [Int.fdiv_eq_ediv _ (le_of_lt hc), Int.fdiv_eq_ediv _ (le_of_lt hc)]
  exact Int.ediv_le_ediv hc h

theorem fdiv_nonpos_of_nonpos {a c : ℤ} (hc : 0 < c) (h : a ≤ 0) : Int.fdiv a c ≤ 0 := by
  have := fdiv_le_fdiv_of_le hc h
  simpa using this

theorem render_nonpos_height (m : ℕ → String → ℤ) (p : LayoutRequest) (n : ℕ)
    (hsp : 1 ≤ p.spacing) (hH : rectHeight p ≤ 0) : render_text_in_rectangle m p n = Except.ok none := by
  apply (renderLoop_none_iff m p hsp n).mpr
  intro s h0 h1 hatt
  rw [attemptSucceeds_iff] at hatt
  have hlh : 1 ≤ lineHeight p.spacing s := one_le_lineHeight hsp h0
  have hmL : Int.fdiv (rectHeight p) (lineHeight p.spacing s) ≤ 0 :=
    fdiv_nonpos_of_nonpos (by omega) hH
  rw [wrapGo_maxL_nonpos _ _ _ hmL] at hatt
  exact pySplit_ne_nil p.text hatt.2

theorem render_step_some {m : ℕ → String → ℤ} {p : LayoutRequest} {s : ℕ} {r : LayoutResult}
    (hlh : lineHeight p.spacing (s + 1) ≠ 0)
    (hA : attemptResult m p (s + 1) = some r) :
    render_text_in_rectangle m p (s + 1) = Except.ok (some r) := by
  unfold render_text_in_rectangle
  simp only [renderLoop]
  rw [if_neg hlh, hA]

theorem render_step_fail {m : ℕ → String → ℤ} {p : LayoutRequest} {s : ℕ}
    (hlh : lineHeight p.spacing (s + 1) ≠ 0)
    (hA : attemptResult m p (s + 1) = none) :
    render_text_in_rectangle m p (s + 1) = render_text_in_rectangle m p s := by
  unfold render_text_in_rectangle
  simp only [renderLoop]
  rw [if_neg hlh, hA]

theorem attemptResult_spacing_one (m : ℕ → String → ℤ) (p : LayoutRequest) (s : ℕ)
    (hsp : p.spacing = 1) :
    attemptResult m p s =
      if (((wrapGo (m s) (rectWidth p) (Int.fdiv (rectHeight p) (s : ℤ))
              (pySplit p.text).length [] (pySplit p.text)).1.length : ℤ) ≤
            Int.fdiv (rectHeight p) (s : ℤ) ∧
          (wrapGo (m s) (rectWidth p) (Int.fdiv (rectHeight p) (s : ℤ))
              (pySplit p.text).length [] (pySplit p.text)).2 = [])
      then some (mkResult (m s) p s (s : ℤ)
        (wrapGo (m s) (rectWidth p) (Int.fdiv (rectHeight p) (s : ℤ))
            (pySplit p.text).length [] (pySplit p.text)).1)
      else none := by
  unfold attemptResult
  rw [hsp, lineHeight_one]

/-- Start y of a successful layout, as computed in generator_utils.py
lines 149-154. -/
def mkStartY (p : LayoutRequest) (size : ℕ) (lh : ℤ) (ls : List String) : ℤ :=
  if p.vAlign = "top" then p.top
  else
    pyInt ((p.top : ℚ) + (rectHeight p : ℚ) / 2 - ((ls.length : ℚ) * (lh : ℚ)) / 2
      - ((lh : ℚ) - (size : ℚ)) / 2)

theorem mkResult_startY (m1 : String → ℤ) (p : LayoutRequest) (s : ℕ) (lh : ℤ) (ls : List String) :
    (mkResult m1 p s lh ls).startY = mkStartY p s lh ls := rfl

theorem mkResult_lines (m1 : String → ℤ) (p : LayoutRequest) (s : ℕ) (lh : ℤ) (ls : List String) :
    (mkResult m1 p s lh ls).lines = drawLines m1 p lh (mkStartY p s lh ls) ls := rfl

theorem mkResult_bounds (m1 : String → ℤ) (p : LayoutRequest) (s : ℕ) (lh : ℤ) (ls : List String) :
    (mkResult m1 p s lh ls).bounds =
      (((drawLines m1 p lh (mkStartY p s lh ls) ls).map (fun l => l.2.1)).foldl min p.right,
       mkStartY p s lh ls,
       ((drawLines m1 p lh (mkStartY p s lh ls) ls).map (fun l => l.2.1 + m1 l.1)).foldl max p.left,
       mkStartY p s lh ls + (ls.length : ℤ) * lh) := rfl

/-- Measurement capability used by the concrete witnesses: the width of
a string is the font size times the number of characters.  It is
deterministic, nonnegative and monotone in the size. -/
def mEx : ℕ → String → ℤ := fun s t => (s : ℤ) * (t.length : ℤ)

theorem mEx_nonneg (s : ℕ) (t : String) : 0 ≤ mEx s t :=
  mul_nonneg (Int.natCast_nonneg s) (Int.natCast_nonneg t.length)

/-- Layout request used by several concrete witnesses. -/
def pEx : LayoutRequest :=
  { text := "ab cd", left := 0, top := 0, right := 100, bottom := 50,
    hAlign := "left", vAlign := "top", spacing := 1 }

def resEx : LayoutResult :=
  { size := 18, startY := 0, lines := [("ab cd", 0, 0)], bounds := (0, 0, 90, 18) }

/-- Claim C1: for every candidate font size s > 0, tried in descending
order decrementing by exactly one, the attempt at s succeeds iff greedy
wrapping at s (split on single spaces, append words while the joined
width stays within rect width) consumes every word in at most
floor(rect_height / line_height) lines; and the size of a returned
layout is the first, that is the largest not exceeding the requested
size, at which this holds. -/
theorem c1_size_loop_greedy_characterization (m : ℕ → String → ℤ) (p : LayoutRequest) (n : ℕ)
    (_hsp : 1 ≤ p.spacing) :
    (∀ s, 0 < s → (attemptSucceeds m p s ↔ fitsGreedy m p s)) ∧
    (∀ r, render_text_in_rectangle m p n = Except.ok (some r) →
      0 < r.size ∧ r.size ≤ n ∧ fitsGreedy m p r.size ∧
      ∀ s, r.size < s → s ≤ n → ¬ fitsGreedy m p s) := by
  constructor
  · intro s _
    exact attempt_iff_fits m p s
  · intro r hr
    rcases render_some_spec hr with ⟨h0, h1, h2, h3⟩
    refine ⟨h0, h1, (attempt_iff_fits m p r.size).mp ?_, ?_⟩
    · simp [attemptSucceeds, h2]
    · intro s hs1 hs2 hfit
      exact h3 s hs1 hs2 ((attempt_iff_fits m p s).mpr hfit)

/-- Witness for claim C1 at a concrete request. -/
theorem c1_witness :
    (∀ s, 0 < s → (attemptSucceeds mEx pEx s ↔ fitsGreedy mEx pEx s)) ∧
    (∀ r, render_text_in_rectangle mEx pEx 18 = Except.ok (some r) →
      0 < r.size ∧ r.size ≤ 18 ∧ fitsGreedy mEx pEx r.size ∧
      ∀ s, r.size < s → s ≤ 18 → ¬ fitsGreedy mEx pEx s) :=
  c1_size_loop_greedy_characterization mEx pEx 18 (le_refl (1 : ℚ))

/-- Claim C2 (amended): the renderer always terminates without raising
when the spacing multiplier is at least one, and it returns a non-null
result iff some size between 1 and the requested size passes the
wrap-and-height fit test.  The original claim, which promised a non-null
result whenever the longest word fits the width at some size, is false
because the height constraint can still reject every size. -/
theorem c2_terminates_and_nonnull_iff_fit (m : ℕ → String → ℤ) (p : LayoutRequest) (n : ℕ)
    (hsp : 1 ≤ p.spacing) :
    (∃ v, render_text_in_rectangle m p n = Except.ok v) ∧
    ((∃ r, render_text_in_rectangle m p n = Except.ok (some r)) ↔ ∃ s, 0 < s ∧ s ≤ n ∧ attemptSucceeds m p s) := by
  refine ⟨renderLoop_ok m p hsp n, ?_, ?_⟩
  · rintro ⟨r, hr⟩
    rcases render_some_spec hr with ⟨h0, h1, h2, -⟩
    exact ⟨r.size, h0, h1, by simp [attemptSucceeds, h2]⟩
  · rintro ⟨s, h0, h1, h2⟩
    rcases renderLoop_ok m p hsp n with ⟨v, hv⟩
    cases v with
    | some r => exact ⟨r, hv⟩
    | none => exact absurd h2 (((renderLoop_none_iff m p hsp n).mp hv) s h0 h1)

/-- Request showing claim C2 false as stated: the single word fits the
width at size 1, but the rectangle has zero height. -/
def pC2 : LayoutRequest :=
  { text := "a", left := 0, top := 0, right := 10, bottom := 0,
    hAlign := "left", vAlign := "top", spacing := 1 }

/-- Counterexample to claim C2 as stated: there is a size at least 1 at
which the longest single word fits the rectangle width, yet the renderer
returns the null DoesNotFit outcome, because the zero-height rectangle
admits no lines. -/
theorem c2_width_precondition_counterexample :
    (∃ s : ℕ, 1 ≤ s ∧ mEx s pC2.text ≤ rectWidth pC2) ∧
    render_text_in_rectangle mEx pC2 3 = Except.ok none :=
  ⟨⟨1, le_refl 1, by decide⟩,
    render_nonpos_height mEx pC2 3 (le_refl (1 : ℚ)) (by decide)⟩

/-- Witness for the amended claim C2 at a concrete request. -/
theorem c2_witness :
    (∃ v, render_text_in_rectangle mEx pEx 18 = Except.ok v) ∧
    ((∃ r, render_text_in_rectangle mEx pEx 18 = Except.ok (some r)) ↔
      ∃ s, 0 < s ∧ s ≤ 18 ∧ attemptSucceeds mEx pEx s) :=
  c2_terminates_and_nonnull_iff_fit mEx pEx 18 (le_refl (1 : ℚ))

/-- Claim C4 (amended): a rectangle of non-positive height makes every
candidate size fail, so the renderer returns the DoesNotFit outcome and
does not raise, for any spacing multiplier at least one.  The original
claim also promised this for non-positive width alone, which is false:
a text whose measured width is not positive, such as the empty string,
can still be laid out in a zero-width rectangle. -/
theorem c4_nonpositive_height_returns_none (m : ℕ → String → ℤ) (p : LayoutRequest) (n : ℕ)
    (hsp : 1 ≤ p.spacing) (hH : rectHeight p ≤ 0) :
    render_text_in_rectangle m p n = Except.ok none :=
  render_nonpos_height m p n hsp hH

/-- Request showing the width half of claim C4 false: zero width, empty
text. -/
def pW0 : LayoutRequest :=
  { text := "", left := 5, top := 0, right := 5, bottom := 50,
    hAlign := "left", vAlign := "top", spacing := 1 }

/-- Counterexample to claim C4 as stated: a request whose rectangle has
non-positive width on which the renderer does not return the DoesNotFit
outcome but lays out one empty line. -/
theorem c4_nonpositive_width_counterexample :
    rectWidth pW0 ≤ 0 ∧
    render_text_in_rectangle mEx pW0 3 =
      Except.ok (some { size := 3, startY := 0, lines := [("", 5, 0)], bounds := (5, 0, 5, 3) }) := by
  have hA : attemptResult mEx pW0 3 =
      some { size := 3, startY := 0, lines := [("", 5, 0)], bounds := (5, 0, 5, 3) } := by
    rw [attemptResult_spacing_one mEx pW0 3 rfl]
    decide
  exact ⟨by decide, render_step_some (lineHeight_ne_zero (le_refl (1 : ℚ)) (by decide)) hA⟩

/-- Request used by the witness of the amended claim C4. -/
def pC4 : LayoutRequest :=
  { text := "ab", left := 0, top := 0, right := 100, bottom := -2,
    hAlign := "left", vAlign := "top", spacing := 1 }

/-- Witness for the amended claim C4 at a concrete request. -/
theorem c4_height_witness : rectHeight pC4 ≤ 0 ∧ render_text_in_rectangle mEx pC4 7 = Except.ok none :=
  ⟨by decide, c4_nonpositive_height_returns_none mEx pC4 7 (le_refl (1 : ℚ)) (by decide)⟩

/-- Claim C5: a text that is a single word wider than the rectangle at
every size from the requested one down to 1 exhausts the size loop and
yields the DoesNotFit outcome; nothing is drawn, no line is emitted and
the word is never broken by character. -/
theorem c5_single_wide_word_returns_none (m : ℕ → String → ℤ) (p : LayoutRequest) (n : ℕ)
    (hsp : 1 ≤ p.spacing) (hw : pySplit p.text = [p.text])
    (hbig : ∀ s, s ≤ n → 0 < s → rectWidth p < m s p.text) :
    render_text_in_rectangle m p n = Except.ok none := by
  refine (renderLoop_none_iff m p hsp n).mpr ?_
  intro s h0 h1 hatt
  rw [attemptSucceeds_iff, hw] at hatt
  rw [wrapGo_single_too_wide (m s) (rectWidth p) _ _ p.text (hbig s h1 h0)] at hatt
  simp at hatt

/-- Request used by the witness of claim C5. -/
def pC5 : LayoutRequest :=
  { text := "aaaa", left := 0, top := 0, right := 3, bottom := 50,
    hAlign := "left", vAlign := "top", spacing := 1 }

/-- Witness for claim C5 at a concrete request. -/
theorem c5_witness : render_text_in_rectangle mEx pC5 3 = Except.ok none :=
  c5_single_wide_word_returns_none mEx pC5 3 (le_refl (1 : ℚ)) (by decide) (by decide)

/-- Claim C8: the renderer is deterministic; two invocations with the
identical request and an extensionally equal measurement capability
produce identical results. -/
theorem c8_identical_requests_identical_results (m1 m2 : ℕ → String → ℤ) (p : LayoutRequest)
    (n : ℕ) (h : ∀ s t, m1 s t = m2 s t) : render_text_in_rectangle m1 p n = render_text_in_rectangle m2 p n := by
  have hm : m1 = m2 := funext fun s => funext fun t => h s t
  rw [hm]

/-- Witness for claim C8 at a concrete request. -/
theorem c8_witness : render_text_in_rectangle mEx pEx 18 = render_text_in_rectangle mEx pEx 18 :=
  c8_identical_requests_identical_results mEx mEx pEx 18 (fun _ _ => rfl)

/-- Claim C9: with a spacing multiplier at least one the renderer is
total: every candidate line height is at least 1, so the floor division
computing max_lines_possible is defined, and the strictly decreasing
size loop terminates with an ordinary result instead of raising. -/
theorem c9_spacing_ge_one_total (m : ℕ → String → ℤ) (p : LayoutRequest) (n : ℕ)
    (hsp : 1 ≤ p.spacing) :
    (∀ s : ℕ, 0 < s → 1 ≤ lineHeight p.spacing s) ∧ ∃ v, render_text_in_rectangle m p n = Except.ok v :=
  ⟨fun s hs => one_le_lineHeight hsp hs, renderLoop_ok m p hsp n⟩

/-- Witness for claim C9 at a concrete request. -/
theorem c9_witness :
    (∀ s : ℕ, 0 < s → 1 ≤ lineHeight pEx.spacing s) ∧ ∃ v, render_text_in_rectangle mEx pEx 18 = Except.ok v :=
  c9_spacing_ge_one_total mEx pEx 18 (le_refl (1 : ℚ))

/-- Claim C3: on success, start_y is rect top for top alignment, and for
any other vertical alignment (the code treats everything except the
literal top as center) it is the truncated value of rect top +
rect_height/2 - (num_lines*line_height)/2 - (line_height - size)/2; in
particular the spec scenario with 2 lines, line height 20, size 18, top
0 and height 100 gives 29. -/
theorem c3_start_y_formula (m : ℕ → String → ℤ) (p : LayoutRequest) (n : ℕ) (r : LayoutResult)
    (hr : render_text_in_rectangle m p n = Except.ok (some r)) :
    (p.vAlign = "top" → r.startY = p.top) ∧
    (p.vAlign ≠ "top" →
      r.startY = pyInt ((p.top : ℚ) + (rectHeight p : ℚ) / 2 -
        ((r.lines.length : ℚ) * (lineHeight p.spacing r.size : ℚ)) / 2 -
        ((lineHeight p.spacing r.size : ℚ) - (r.size : ℚ)) / 2)) ∧
    pyInt ((0 : ℚ) + (100 : ℚ) / 2 - ((2 : ℚ) * (20 : ℚ)) / 2 - ((20 : ℚ) - (18 : ℚ)) / 2) = 29 := by
  rcases renderLoop_some hr with ⟨s, hs0, hs1, hA, -⟩
  rcases attemptResult_some hA with ⟨hmk, -, -⟩
  subst hmk
  refine ⟨?_, ?_, by norm_num [pyInt]⟩
  · intro hv
    rw [mkResult_startY]
    unfold mkStartY
    rw [if_pos hv]
  · intro hv
    rw [mkResult_startY, mkResult_size, mkResult_lines, drawLines_length]
    unfold mkStartY
    rw [if_neg hv]

/-- Request used by the witness of claim C3: center vertical alignment. -/
def pC3 : LayoutRequest :=
  { text := "a", left := 0, top := 0, right := 100, bottom := 50,
    hAlign := "left", vAlign := "center", spacing := 1 }

/-- Layout produced for pC3 at size 18: one line, line height 18, so
start_y = int(0 + 25 - 9 - 0) = 16. -/
def resC3 : LayoutResult :=
  { size := 18, startY := 16, lines := [("a", 0, 16)], bounds := (0, 16, 18, 34) }

theorem attemptResult_pC3 : attemptResult mEx pC3 18 = some resC3 := by
  rw [attemptResult_spacing_one mEx pC3 18 rfl]
  simp only [Nat.cast_ofNat]
  have hwr : wrapGo (mEx 18) (rectWidth pC3) (Int.fdiv (rectHeight pC3) (18 : ℤ))
      (pySplit pC3.text).length [] (pySplit pC3.text) = (["a"], []) := by decide
  rw [hwr]
  rw [if_pos (by decide :
    (((["a"] : List String), ([] : List String)).1.length : ℤ) ≤
        Int.fdiv (rectHeight pC3) (18 : ℤ) ∧
      ((["a"] : List String), ([] : List String)).2 = [])]
  have hmk : mkResult (mEx 18) pC3 18 (18 : ℤ) ["a"] = resC3 := by
    unfold mkResult
    rw [if_neg (by decide : ¬ pC3.vAlign = "top")]
    have hsy : pyInt ((pC3.top : ℚ) + (rectHeight pC3 : ℚ) / 2 -
        (((["a"] : List String).length : ℚ) * ((18 : ℤ) : ℚ)) / 2 -
        (((18 : ℤ) : ℚ) - ((18 : ℕ) : ℚ)) / 2) = 16 := by
      norm_num [pyInt, pC3, rectHeight]
    rw [hsy]
    decide
  rw [hmk]

/-- Witness for claim C3 at a concrete center-aligned request. -/
theorem c3_witness :
    (pC3.vAlign = "top" → resC3.startY = pC3.top) ∧
    (pC3.vAlign ≠ "top" →
      resC3.startY = pyInt ((pC3.top : ℚ) + (rectHeight pC3 : ℚ) / 2 -
        ((resC3.lines.length : ℚ) * (lineHeight pC3.spacing resC3.size : ℚ)) / 2 -
        ((lineHeight pC3.spacing resC3.size : ℚ) - (resC3.size : ℚ)) / 2)) ∧
    pyInt ((0 : ℚ) + (100 : ℚ) / 2 - ((2 : ℚ) * (20 : ℚ)) / 2 - ((20 : ℚ) - (18 : ℚ)) / 2) = 29 :=
  c3_start_y_formula mEx pC3 18 resC3
    (render_step_some (lineHeight_ne_zero (le_refl (1 : ℚ)) (by decide)) attemptResult_pC3)

theorem drawLines_ne_nil (m1 : String → ℤ) (p : LayoutRequest) (lh : ℤ) (y : ℤ)
    (ls : List String) (hne : ls ≠ []) : drawLines m1 p lh y ls ≠ [] := by
  intro hcon
  apply hne
  have hlen := drawLines_length m1 p lh y ls
  rw [hcon] at hlen
  exact List.eq_nil_of_length_eq_zero hlen.symm

theorem mkResult_bounds_spec (m1 : String → ℤ) (p : LayoutRequest) (s : ℕ) (lh : ℤ)
    (ls : List String) (hne : ls ≠ []) (h0 : ∀ t, 0 ≤ m1 t)
    (hwid : ∀ t ∈ ls, m1 t ≤ rectWidth p) :
    (mkResult m1 p s lh ls).lines ≠ [] ∧
    ((mkResult m1 p s lh ls).bounds.1 ∈ (mkResult m1 p s lh ls).lines.map (fun l => l.2.1) ∧
      ∀ x ∈ (mkResult m1 p s lh ls).lines.map (fun l => l.2.1),
        (mkResult m1 p s lh ls).bounds.1 ≤ x) ∧
    ((mkResult m1 p s lh ls).bounds.2.2.1 ∈
        (mkResult m1 p s lh ls).lines.map (fun l => l.2.1 + m1 l.1) ∧
      ∀ x ∈ (mkResult m1 p s lh ls).lines.map (fun l => l.2.1 + m1 l.1),
        x ≤ (mkResult m1 p s lh ls).bounds.2.2.1) ∧
    (mkResult m1 p s lh ls).bounds.2.1 = (mkResult m1 p s lh ls).startY ∧
    (mkResult m1 p s lh ls).bounds.2.2.2 =
      (mkResult m1 p s lh ls).startY + ((mkResult m1 p s lh ls).lines.length : ℤ) * lh ∧
    ∀ (i : ℕ) (hi : i < (mkResult m1 p s lh ls).lines.length),
      ((mkResult m1 p s lh ls).lines.get ⟨i, hi⟩).2.2 =
        (mkResult m1 p s lh ls).startY + (i : ℤ) * lh := by
  have hW0 : 0 ≤ rectWidth p := by
    rcases List.exists_mem_of_ne_nil ls hne with ⟨t0, ht0⟩
    exact le_trans (h0 t0) (hwid t0 ht0)
  simp only [mkResult_lines, mkResult_bounds, mkResult_startY]
  have hdne : drawLines m1 p lh (mkStartY p s lh ls) ls ≠ [] :=
    drawLines_ne_nil m1 p lh _ ls hne
  have hxfacts : ∀ l ∈ drawLines m1 p lh (mkStartY p s lh ls) ls,
      l.1 ∈ ls ∧ l.2.1 = lineX m1 p l.1 :=
    fun l hl => drawLines_mem m1 p lh _ ls l hl
  have hub : ∀ x ∈ (drawLines m1 p lh (mkStartY p s lh ls) ls).map (fun l => l.2.1),
      x ≤ p.right := by
    intro x hx
    rcases List.mem_map.mp hx with ⟨l, hl, rfl⟩
    rcases hxfacts l hl with ⟨-, hx'⟩
    rw [hx']
    exact lineX_le_right m1 p l.1 (h0 l.1) hW0
  have hlb : ∀ x ∈ (drawLines m1 p lh (mkStartY p s lh ls) ls).map (fun l => l.2.1 + m1 l.1),
      p.left ≤ x := by
    intro x hx
    rcases List.mem_map.mp hx with ⟨l, hl, rfl⟩
    rcases hxfacts l hl with ⟨hmem, hx'⟩
    rw [hx']
    exact le_trans (left_le_lineX m1 p l.1 (hwid l.1 hmem)) (le_add_of_nonneg_right (h0 l.1))
  have hmin := foldl_min_attained p.right
    ((drawLines m1 p lh (mkStartY p s lh ls) ls).map (fun l => l.2.1))
    (by simpa using hdne) hub
  have hmax := foldl_max_attained p.left
    ((drawLines m1 p lh (mkStartY p s lh ls) ls).map (fun l => l.2.1 + m1 l.1))
    (by simpa using hdne) hlb
  refine ⟨hdne, hmin, hmax, ?_, ?_, ?_⟩
  · trivial
  · rw [drawLines_length]
  · intro i hi
    exact drawLines_get m1 p lh ls (mkStartY p s lh ls) i hi

/-- Claim C6: on success with a nonnegative measurement capability, the
returned actual bounds are exactly the minimum drawn x and the maximum
drawn x plus line width horizontally, and the full line-box extent from
start_y to start_y plus num_lines times line_height vertically, with the
y of each line advancing by line_height from start_y in order. -/
theorem c6_actual_bounds_tight (m : ℕ → String → ℤ) (p : LayoutRequest) (n : ℕ)
    (r : LayoutResult) (hm : ∀ s t, 0 ≤ m s t)
    (hr : render_text_in_rectangle m p n = Except.ok (some r)) :
    r.lines ≠ [] ∧
    (r.bounds.1 ∈ r.lines.map (fun l => l.2.1) ∧
      ∀ x ∈ r.lines.map (fun l => l.2.1), r.bounds.1 ≤ x) ∧
    (r.bounds.2.2.1 ∈ r.lines.map (fun l => l.2.1 + m r.size l.1) ∧
      ∀ x ∈ r.lines.map (fun l => l.2.1 + m r.size l.1), x ≤ r.bounds.2.2.1) ∧
    r.bounds.2.1 = r.startY ∧
    r.bounds.2.2.2 = r.startY + (r.lines.length : ℤ) * lineHeight p.spacing r.size ∧
    ∀ (i : ℕ) (hi : i < r.lines.length),
      (r.lines.get ⟨i, hi⟩).2.2 = r.startY + (i : ℤ) * lineHeight p.spacing r.size := by
  rcases renderLoop_some hr with ⟨s, hs0, hs1, hA, -⟩
  rcases attemptResult_some hA with ⟨hmk, -, hrem⟩
  have hne : (wrapGo (m s) (rectWidth p) (Int.fdiv (rectHeight p) (lineHeight p.spacing s))
      (pySplit p.text).length [] (pySplit p.text)).1 ≠ [] := by
    have hgrow := wrapGo_grow (m s) (rectWidth p)
      (Int.fdiv (rectHeight p) (lineHeight p.spacing s)) (pySplit p.text).length []
      (pySplit p.text) (pySplit_ne_nil p.text) hrem
    intro hcon
    rw [hcon] at hgrow
    simp at hgrow
  have hwid : ∀ t ∈ (wrapGo (m s) (rectWidth p)
      (Int.fdiv (rectHeight p) (lineHeight p.spacing s))
      (pySplit p.text).length [] (pySplit p.text)).1, m s t ≤ rectWidth p :=
    wrapGo_width (m s) (rectWidth p) _ _ _ _ (by simp)
  subst hmk
  simp only [mkResult_size]
  exact mkResult_bounds_spec (m s) p s (lineHeight p.spacing s) _ hne (hm s) hwid

/-- Witness for claim C6 at a concrete request. -/
theorem c6_witness :
    resEx.lines ≠ [] ∧
    (resEx.bounds.1 ∈ resEx.lines.map (fun l => l.2.1) ∧
      ∀ x ∈ resEx.lines.map (fun l => l.2.1), resEx.bounds.1 ≤ x) ∧
    (resEx.bounds.2.2.1 ∈ resEx.lines.map (fun l => l.2.1 + mEx resEx.size l.1) ∧
      ∀ x ∈ resEx.lines.map (fun l => l.2.1 + mEx resEx.size l.1), x ≤ resEx.bounds.2.2.1) ∧
    resEx.bounds.2.1 = resEx.startY ∧
    resEx.bounds.2.2.2 = resEx.startY + (resEx.lines.length : ℤ) * lineHeight pEx.spacing resEx.size ∧
    ∀ (i : ℕ) (hi : i < resEx.lines.length),
      (resEx.lines.get ⟨i, hi⟩).2.2 = resEx.startY + (i : ℤ) * lineHeight pEx.spacing resEx.size :=
  c6_actual_bounds_tight mEx pEx 18 resEx mEx_nonneg
    (render_step_some (lineHeight_ne_zero (le_refl (1 : ℚ)) (by decide))
      (by rw [attemptResult_spacing_one mEx pEx 18 rfl]; decide))

/-- Claim C7: reducing rect_height, all else equal, never increases the
accepted font size. -/
theorem c7_smaller_height_never_larger_size (m : ℕ → String → ℤ) (p1 p2 : LayoutRequest)
    (n : ℕ) (hsp : 1 ≤ p1.spacing) (htext : p2.text = p1.text)
    (hW : rectWidth p2 = rectWidth p1) (hspacing : p2.spacing = p1.spacing)
    (hH : rectHeight p2 ≤ rectHeight p1) (r1 r2 : LayoutResult)
    (h1 : render_text_in_rectangle m p1 n = Except.ok (some r1))
    (h2 : render_text_in_rectangle m p2 n = Except.ok (some r2)) :
    r2.size ≤ r1.size := by
  rcases render_some_spec h1 with ⟨-, -, -, a3⟩
  rcases render_some_spec h2 with ⟨b0, b1, b2, -⟩
  by_contra hlt
  push_neg at hlt
  have hfit2 : fitsGreedy m p2 r2.size :=
    (attempt_iff_fits m p2 r2.size).mp (by simp [attemptSucceeds, b2])
  have hfit1 : fitsGreedy m p1 r2.size := by
    unfold fitsGreedy at hfit2 ⊢
    rcases hfit2 with ⟨out, hout, hle⟩
    refine ⟨out, ?_, ?_⟩
    · rw [← htext, ← hW]
      exact hout
    · have hlh : 1 ≤ lineHeight p1.spacing r2.size := one_le_lineHeight hsp b0
      calc (out.length : ℤ)
          ≤ Int.fdiv (rectHeight p2) (lineHeight p2.spacing r2.size) := hle
        _ = Int.fdiv (rectHeight p2) (lineHeight p1.spacing r2.size) := by rw [hspacing]
        _ ≤ Int.fdiv (rectHeight p1) (lineHeight p1.spacing r2.size) :=
            fdiv_le_fdiv_of_le (by omega) hH
  exact a3 r2.size hlt b1 ((attempt_iff_fits m p1 r2.size).mpr hfit1)

/-- Request used by the witness of claim C7: same as pEx with a smaller
height. -/
def pC7 : LayoutRequest :=
  { text := "ab cd", left := 0, top := 0, right := 100, bottom := 20,
    hAlign := "left", vAlign := "top", spacing := 1 }

/-- Witness for claim C7 at a concrete pair of requests. -/
theorem c7_witness : rectHeight pC7 ≤ rectHeight pEx ∧ resEx.size ≤ resEx.size :=
  ⟨by decide,
    c7_smaller_height_never_larger_size mEx pEx pC7 18 (le_refl (1 : ℚ)) rfl (by decide) rfl
      (by decide) resEx resEx
      (render_step_some (lineHeight_ne_zero (le_refl (1 : ℚ)) (by decide))
        (by rw [attemptResult_spacing_one mEx pEx 18 rfl]; decide))
      (render_step_some (lineHeight_ne_zero (le_refl (1 : ℚ)) (by decide))
        (by rw [attemptResult_spacing_one mEx pC7 18 rfl]; decide))⟩

theorem mkResultMain_eq (m1 : String → ℤ) (p : LayoutRequest) (s : ℕ) (lh : ℤ)
    (ls : List String) : mkResultMain m1 p s lh ls = mkResult m1 p s lh ls := rfl

theorem attemptResultMain_eq (m : ℕ → String → ℤ) (p : LayoutRequest) (s : ℕ) :
    attemptResultMain m p s = attemptResult m p s := rfl

theorem renderLoopMain_eq (m : ℕ → String → ℤ) (p : LayoutRequest) :
    ∀ n, renderLoopMain m p n = renderLoop m p n := by
  intro n
  induction n with
  | zero => rfl
  | succ s ih =>
      simp only [renderLoopMain, renderLoop, attemptResultMain_eq, ih]

/-- Claim C10: the duplicate renderer defined in __main__.py computes
exactly the same results as the one in generator_utils.py on every
input: the only textual differences between the two copies are redundant
int() casts applied to already-integer values. -/
theorem c10_main_duplicate_equals_generator_utils (m : ℕ → String → ℤ) (p : LayoutRequest)
    (n : ℕ) : render_text_in_rectangle_main m p n = render_text_in_rectangle m p n :=
  renderLoopMain_eq m p n

end FeedToImage
